import Mathlib

/-
Verification development for the autogit daemon (Rust sources under
autogit-daemon/src and autogit-shared/src).

Modelling conventions:
* Rust strings are modelled as `List Char`.
* Fallible operations (`anyhow::Result`) are modelled as `Except String`.
* External effects (libgit2 calls, subprocess execution) are modelled by an
  oracle record giving each call's outcome; the control flow of the Rust
  functions is transcribed over that oracle.
* `chrono::Local::now()` is modelled by a `LocalDateTime` record of numeric
  components, and the `%Y-%m-%d %H:%M:%S` style formats are transcribed as
  zero-padded decimal rendering.
-/

namespace Autogit

/-! ## Local time and chrono-style formatting (git.rs, format_commit_message) -/

/-- Components of `chrono::Local::now()` that the commit-message formats use. -/
structure LocalDateTime where
  year : Nat
  month : Nat
  day : Nat
  hour : Nat
  minute : Nat
  second : Nat

/-- Decimal digits of a natural number, most significant first. -/
def natDigits (n : Nat) : List Char :=
  if n < 10 then [Char.ofNat (48 + n)]
  else natDigits (n / 10) ++ [Char.ofNat (48 + n % 10)]
  termination_by n
  decreasing_by
    exact Nat.div_lt_self (by omega) (by omega)

/-- Left-pad with the zero character to width `w` (chrono zero padding). -/
def padLeft (w : Nat) (s : List Char) : List Char :=
  List.replicate (w - s.length) '0' ++ s

/-- chrono `%m`, `%d`, `%H`, `%M`, `%S`: two-digit zero padded. -/
def fmt2 (n : Nat) : List Char := padLeft 2 (natDigits n)

/-- chrono `%Y`: four-digit zero padded year. -/
def fmtYear (n : Nat) : List Char := padLeft 4 (natDigits n)

/-- Rendering of `%Y-%m-%d`. -/
def fmtDate (now : LocalDateTime) : List Char :=
  fmtYear now.year ++ ['-'] ++ fmt2 now.month ++ ['-'] ++ fmt2 now.day

/-- Rendering of `%H:%M:%S`. -/
def fmtTime (now : LocalDateTime) : List Char :=
  fmt2 now.hour ++ [':'] ++ fmt2 now.minute ++ [':'] ++ fmt2 now.second

/-- Rendering of `%Y-%m-%d %H:%M:%S`. -/
def fmtTimestamp (now : LocalDateTime) : List Char :=
  fmtDate now ++ [' '] ++ fmtTime now

/-- Rust `str::replace`: replace every leftmost non-overlapping occurrence of
`pat` in the scanned list by `rep`. -/
def replaceGo (pat rep : List Char) : List Char → List Char
  | [] => []
  | c :: rest =>
    if pat.isPrefixOf (c :: rest) then
      rep ++ replaceGo pat rep (rest.drop (pat.length - 1))
    else
      c :: replaceGo pat rep rest
  termination_by l => l.length
  decreasing_by
    · simp only [List.length_drop, List.length_cons]; omega
    · simp only [List.length_cons]; omega

/-- Rust `s.replace(pat, rep)` with receiver first. -/
def rustReplace (s pat rep : List Char) : List Char := replaceGo pat rep s

/-- The literal placeholder `{timestamp}` (braces written as characters). -/
def tsPat : List Char := ['{', 't', 'i', 'm', 'e', 's', 't', 'a', 'm', 'p', '}']

/-- The literal placeholder `{date}`. -/
def datePat : List Char := ['{', 'd', 'a', 't', 'e', '}']

/-- The literal placeholder `{time}`. -/
def timePat : List Char := ['{', 't', 'i', 'm', 'e', '}']

/-- git.rs `format_commit_message`: three successive `str::replace` calls on
the template, substituting the three placeholders with renderings of the
current local time. -/
def format_commit_message (now : LocalDateTime) (template : List Char) : List Char :=
  rustReplace
    (rustReplace
      (rustReplace template tsPat (fmtTimestamp now))
      datePat (fmtDate now))
    timePat (fmtTime now)

/-- Substitution as the specification words it: a single left-to-right scan;
at each position, if one of the three literal placeholder substrings starts
here it is replaced by its rendering of the current local time, otherwise the
character passes through unchanged. -/
def spec_substitution (now : LocalDateTime) : List Char → List Char
  | [] => []
  | c :: rest =>
    if tsPat.isPrefixOf (c :: rest) then
      fmtTimestamp now ++ spec_substitution now (rest.drop (tsPat.length - 1))
    else if datePat.isPrefixOf (c :: rest) then
      fmtDate now ++ spec_substitution now (rest.drop (datePat.length - 1))
    else if timePat.isPrefixOf (c :: rest) then
      fmtTime now ++ spec_substitution now (rest.drop (timePat.length - 1))
    else
      c :: spec_substitution now rest
  termination_by l => l.length
  decreasing_by
    · simp only [List.length_drop, List.length_cons]; omega
    · simp only [List.length_drop, List.length_cons]; omega
    · simp only [List.length_drop, List.length_cons]; omega
    · simp only [List.length_cons]; omega

/-! ### Character facts for the formatting proofs -/

/-- A character is a decimal digit. -/
def isDigitCh (c : Char) : Prop := 48 ≤ c.toNat ∧ c.toNat ≤ 57

instance (c : Char) : Decidable (isDigitCh c) := by
  unfold isDigitCh; infer_instance

theorem digitCh_ofNat {d : Nat} (hd : d < 10) : isDigitCh (Char.ofNat (48 + d)) := by
  interval_cases d <;> decide

theorem natDigits_all_digit : ∀ n, ∀ c ∈ natDigits n, isDigitCh c := by
  intro n
  induction n using Nat.strong_induction_on with
  | _ n ih =>
    intro c hc
    rw [natDigits] at hc
    by_cases h : n < 10
    · simp only [if_pos h, List.mem_singleton] at hc
      exact hc ▸ digitCh_ofNat h
    · simp only [if_neg h, List.mem_append, List.mem_singleton] at hc
      rcases hc with hc | hc
      · exact ih (n / 10) (Nat.div_lt_self (by omega) (by omega)) c hc
      · exact hc ▸ digitCh_ofNat (Nat.mod_lt _ (by omega))

theorem natDigits_ne_nil (n : Nat) : natDigits n ≠ [] := by
  rw [natDigits]
  by_cases h : n < 10 <;> simp [h]

theorem padLeft_all (w : Nat) (s : List Char) :
    ∀ c ∈ padLeft w s, c = '0' ∨ c ∈ s := by
  intro c hc
  simp only [padLeft, List.mem_append, List.mem_replicate] at hc
  rcases hc with hc | hc
  · exact Or.inl hc.2
  · exact Or.inr hc

theorem fmt2_all_digit (n : Nat) : ∀ c ∈ fmt2 n, isDigitCh c := by
  intro c hc
  rcases padLeft_all 2 (natDigits n) c hc with h | h
  · exact h ▸ (by decide : isDigitCh '0')
  · exact natDigits_all_digit n c h

theorem fmtYear_all_digit (n : Nat) : ∀ c ∈ fmtYear n, isDigitCh c := by
  intro c hc
  rcases padLeft_all 4 (natDigits n) c hc with h | h
  · exact h ▸ (by decide : isDigitCh '0')
  · exact natDigits_all_digit n c h

theorem isDigitCh_ne_brace {c : Char} (h : isDigitCh c) : c ≠ '{' := by
  intro he
  rw [he] at h
  exact absurd h (by decide)

theorem fmtDate_all (now : LocalDateTime) :
    ∀ c ∈ fmtDate now, isDigitCh c ∨ c = '-' := by
  intro c hc
  unfold fmtDate at hc
  rcases List.mem_append.mp hc with hc | hc
  · rcases List.mem_append.mp hc with hc | hc
    · rcases List.mem_append.mp hc with hc | hc
      · rcases List.mem_append.mp hc with hc | hc
        · exact Or.inl (fmtYear_all_digit _ _ hc)
        · exact Or.inr (List.mem_singleton.mp hc)
      · exact Or.inl (fmt2_all_digit _ _ hc)
    · exact Or.inr (List.mem_singleton.mp hc)
  · exact Or.inl (fmt2_all_digit _ _ hc)

theorem fmtTime_all (now : LocalDateTime) :
    ∀ c ∈ fmtTime now, isDigitCh c ∨ c = ':' := by
  intro c hc
  unfold fmtTime at hc
  rcases List.mem_append.mp hc with hc | hc
  · rcases List.mem_append.mp hc with hc | hc
    · rcases List.mem_append.mp hc with hc | hc
      · rcases List.mem_append.mp hc with hc | hc
        · exact Or.inl (fmt2_all_digit _ _ hc)
        · exact Or.inr (List.mem_singleton.mp hc)
      · exact Or.inl (fmt2_all_digit _ _ hc)
    · exact Or.inr (List.mem_singleton.mp hc)
  · exact Or.inl (fmt2_all_digit _ _ hc)

theorem brace_not_mem_fmtDate (now : LocalDateTime) : '{' ∉ fmtDate now := by
  intro h
  rcases fmtDate_all now '{' h with hd | he
  · exact isDigitCh_ne_brace hd rfl
  · exact absurd he (by decide)

theorem brace_not_mem_fmtTime (now : LocalDateTime) : '{' ∉ fmtTime now := by
  intro h
  rcases fmtTime_all now '{' h with hd | he
  · exact isDigitCh_ne_brace hd rfl
  · exact absurd he (by decide)

theorem brace_not_mem_fmtTimestamp (now : LocalDateTime) : '{' ∉ fmtTimestamp now := by
  intro h
  unfold fmtTimestamp at h
  rcases List.mem_append.mp h with h | h
  · rcases List.mem_append.mp h with h | h
    · exact brace_not_mem_fmtDate now h
    · exact absurd (List.mem_singleton.mp h) (by decide)
  · exact brace_not_mem_fmtTime now h

theorem padLeft_head_digit (w : Nat) (s : List Char) (hs : s ≠ [])
    (hd : ∀ c ∈ s, isDigitCh c) :
    ∃ c cs, padLeft w s = c :: cs ∧ isDigitCh c := by
  unfold padLeft
  cases hr : List.replicate (w - s.length) '0' with
  | nil =>
    cases s with
    | nil => exact absurd rfl hs
    | cons c cs => exact ⟨c, cs, by simp, hd c (by simp)⟩
  | cons r rs =>
    have hr0 : r = '0' := by
      have : r ∈ List.replicate (w - s.length) '0' := by rw [hr]; simp
      exact (List.mem_replicate.mp this).2
    exact ⟨r, rs ++ s, by simp [hr], hr0 ▸ (by decide : isDigitCh '0')⟩

theorem fmtDate_head_digit (now : LocalDateTime) :
    ∃ c cs, fmtDate now = c :: cs ∧ isDigitCh c := by
  obtain ⟨c, cs, heq, hdd⟩ :=
    padLeft_head_digit 4 (natDigits now.year) (natDigits_ne_nil _) (natDigits_all_digit _)
  exact ⟨c, cs ++ (['-'] ++ fmt2 now.month ++ ['-'] ++ fmt2 now.day), by
    simp only [fmtDate, fmtYear, heq]; simp, hdd⟩

theorem fmtTime_head_digit (now : LocalDateTime) :
    ∃ c cs, fmtTime now = c :: cs ∧ isDigitCh c := by
  obtain ⟨c, cs, heq, hdd⟩ :=
    padLeft_head_digit 2 (natDigits now.hour) (natDigits_ne_nil _) (natDigits_all_digit _)
  exact ⟨c, cs ++ ([':'] ++ fmt2 now.minute ++ [':'] ++ fmt2 now.second), by
    simp only [fmtTime, fmt2, heq]; simp, hdd⟩

theorem fmtTimestamp_head_digit (now : LocalDateTime) :
    ∃ c cs, fmtTimestamp now = c :: cs ∧ isDigitCh c := by
  obtain ⟨c, cs, heq, hdd⟩ := fmtDate_head_digit now
  exact ⟨c, cs ++ ([' '] ++ fmtTime now), by simp only [fmtTimestamp, heq]; simp, hdd⟩

/-! ### Unfolding and interaction lemmas for `replaceGo` -/

theorem replaceGo_nil (pat rep : List Char) : replaceGo pat rep [] = [] := by
  rw [replaceGo]

theorem replaceGo_cons_pos {pat : List Char} (rep : List Char) {c : Char} {rest : List Char}
    (h : pat.isPrefixOf (c :: rest) = true) :
    replaceGo pat rep (c :: rest) = rep ++ replaceGo pat rep (rest.drop (pat.length - 1)) := by
  rw [replaceGo, if_pos h]

theorem replaceGo_cons_neg {pat : List Char} (rep : List Char) {c : Char} {rest : List Char}
    (h : pat.isPrefixOf (c :: rest) = false) :
    replaceGo pat rep (c :: rest) = c :: replaceGo pat rep rest := by
  rw [replaceGo, if_neg (by simp [h])]

theorem isPrefixOf_append_self : ∀ (p x : List Char), p.isPrefixOf (p ++ x) = true := by
  intro p
  induction p with
  | nil => intro x; simp
  | cons a as ih =>
    intro x
    simp only [List.cons_append, List.isPrefixOf_cons₂, ih, beq_self_eq_true, Bool.and_self]

theorem isPrefixOf_cons_of_head_ne {a c : Char} (p y : List Char) (h : a ≠ c) :
    (a :: p).isPrefixOf (c :: y) = false := by
  rw [List.isPrefixOf_cons₂]
  simp [h]

theorem eq_append_of_isPrefixOf : ∀ (p t : List Char), p.isPrefixOf t = true →
    ∃ x, t = p ++ x := by
  intro p
  induction p with
  | nil => intro t _; exact ⟨t, rfl⟩
  | cons a as ih =>
    intro t h
    cases t with
    | nil => simp at h
    | cons b bs =>
      rw [List.isPrefixOf_cons₂] at h
      simp only [Bool.and_eq_true, beq_iff_eq] at h
      obtain ⟨x, hx⟩ := ih bs h.2
      exact ⟨x, by simp [h.1, hx]⟩

/-- Replacing at an exact occurrence of the pattern at the head. -/
theorem replaceGo_at_self {pat : List Char} (rep : List Char) {p0 : Char} {pt : List Char}
    (hp : pat = p0 :: pt) (x : List Char) :
    replaceGo pat rep (pat ++ x) = rep ++ replaceGo pat rep x := by
  subst hp
  have h1 : (p0 :: pt).isPrefixOf (p0 :: (pt ++ x)) = true :=
    isPrefixOf_append_self (p0 :: pt) x
  have h2 : (p0 :: (pt ++ x)) = (p0 :: pt) ++ x := by simp
  calc replaceGo (p0 :: pt) rep ((p0 :: pt) ++ x)
      = replaceGo (p0 :: pt) rep (p0 :: (pt ++ x)) := by simp
    _ = rep ++ replaceGo (p0 :: pt) rep ((pt ++ x).drop ((p0 :: pt).length - 1)) :=
        replaceGo_cons_pos rep h1
    _ = rep ++ replaceGo (p0 :: pt) rep x := by
        simp [List.drop_left]

/-- A region `a` that contains no opening brace past its head, and where the
pattern (which starts with an opening brace) does not match at the start, is
copied verbatim by the replacement scan. -/
theorem replaceGo_skip {pat : List Char} (rep : List Char) {pt : List Char}
    (hp : pat = '{' :: pt) :
    ∀ (a x : List Char), pat.isPrefixOf (a ++ x) = false → '{' ∉ a.tail →
      replaceGo pat rep (a ++ x) = a ++ replaceGo pat rep x := by
  intro a
  induction a with
  | nil => intro x _ _; simp
  | cons c a' ih =>
    intro x h0 htl
    have hcons : replaceGo pat rep (c :: (a' ++ x)) = c :: replaceGo pat rep (a' ++ x) :=
      replaceGo_cons_neg rep h0
    simp only [List.cons_append, hcons]
    cases a' with
    | nil => simp
    | cons d a'' =>
      have hd : d ≠ '{' := by
        intro he
        exact htl (by simp [he])
      have h0' : pat.isPrefixOf ((d :: a'') ++ x) = false := by
        rw [hp]
        exact isPrefixOf_cons_of_head_ne pt (a'' ++ x) (fun he => hd he.symm)
      have htl' : '{' ∉ (d :: a'').tail := by
        intro he
        exact htl (List.mem_cons_of_mem d (by simp only [List.tail_cons] at he; exact he))
      rw [ih x h0' htl']

/-- Convenience form of `replaceGo_skip`: a nonempty brace-free region is
copied verbatim. -/
theorem replaceGo_skip_braceFree {pat : List Char} (rep : List Char) {pt : List Char}
    (hp : pat = '{' :: pt) (a x : List Char) (ha : '{' ∉ a) :
    replaceGo pat rep (a ++ x) = a ++ replaceGo pat rep x := by
  cases a with
  | nil => simp
  | cons c a' =>
    have hc : c ≠ '{' := fun he => ha (by simp [he])
    refine replaceGo_skip rep hp (c :: a') x ?_ ?_
    · rw [hp]
      exact isPrefixOf_cons_of_head_ne pt (a' ++ x) (fun he => hc he.symm)
    · intro he
      exact ha (by simp at he ⊢; exact Or.inr he)

/-- If a query string made of non-digit characters is not a prefix of `t`,
it is still not a prefix after a replacement whose substitute starts with a
digit: the scan only removes pattern occurrences and inserts digit-headed
text. -/
theorem not_isPrefixOf_replaceGo {pat rep : List Char} {r : Char} {rs : List Char}
    (hrep : rep = r :: rs) (hr : isDigitCh r) :
    ∀ (t q : List Char), (∀ c ∈ q, ¬ isDigitCh c) → q.isPrefixOf t = false →
      q.isPrefixOf (replaceGo pat rep t) = false := by
  intro t
  induction t with
  | nil => intro q _ h; simpa [replaceGo_nil] using h
  | cons c rest ih =>
    intro q hq h
    cases q with
    | nil => simp at h
    | cons q0 q' =>
      cases hm : pat.isPrefixOf (c :: rest) with
      | true =>
        rw [replaceGo_cons_pos rep hm, hrep]
        have hq0 : q0 ≠ r := by
          intro he
          exact hq q0 (by simp) (he ▸ hr)
        simpa using isPrefixOf_cons_of_head_ne q'
          (rs ++ replaceGo pat (r :: rs) (rest.drop (pat.length - 1))) hq0
      | false =>
        rw [replaceGo_cons_neg rep hm]
        by_cases hc : q0 = c
        · subst hc
          rw [List.isPrefixOf_cons₂] at h ⊢
          simp only [beq_self_eq_true, Bool.true_and] at h ⊢
          exact ih q' (fun d hd => hq d (by simp [hd])) h
        · exact isPrefixOf_cons_of_head_ne q' (replaceGo pat rep rest) hc

/-! ### Concrete facts about the three placeholder patterns -/

theorem tsPat_eq : tsPat = '{' :: ['t', 'i', 'm', 'e', 's', 't', 'a', 'm', 'p', '}'] := rfl

theorem datePat_eq : datePat = '{' :: ['d', 'a', 't', 'e', '}'] := rfl

theorem timePat_eq : timePat = '{' :: ['t', 'i', 'm', 'e', '}'] := rfl

theorem ts_not_pre_date (x : List Char) : tsPat.isPrefixOf (datePat ++ x) = false := by
  show tsPat.isPrefixOf ('{' :: ('d' :: (['a', 't', 'e', '}'] ++ x))) = false
  rw [tsPat_eq, List.isPrefixOf_cons₂,
    isPrefixOf_cons_of_head_ne _ _ (by decide : ('t' : Char) ≠ 'd')]
  simp

theorem ts_not_pre_time (x : List Char) : tsPat.isPrefixOf (timePat ++ x) = false := by
  show tsPat.isPrefixOf
    ('{' :: 't' :: 'i' :: 'm' :: 'e' :: ('}' :: x)) = false
  rw [tsPat_eq]
  simp only [List.isPrefixOf_cons₂]
  have hs : (('s' : Char) == '}') = false := by decide
  simp [hs]

theorem date_not_pre_time (x : List Char) : timePat.isPrefixOf (datePat ++ x) = false := by
  show timePat.isPrefixOf ('{' :: ('d' :: (['a', 't', 'e', '}'] ++ x))) = false
  rw [timePat_eq, List.isPrefixOf_cons₂,
    isPrefixOf_cons_of_head_ne _ _ (by decide : ('t' : Char) ≠ 'd')]
  simp

theorem time_not_pre_date (x : List Char) : datePat.isPrefixOf (timePat ++ x) = false := by
  show datePat.isPrefixOf ('{' :: ('t' :: (['i', 'm', 'e', '}'] ++ x))) = false
  rw [datePat_eq, List.isPrefixOf_cons₂,
    isPrefixOf_cons_of_head_ne _ _ (by decide : ('d' : Char) ≠ 't')]
  simp

/-! ### Unfolding lemmas for `format_commit_message` -/

theorem fcm_nil (now : LocalDateTime) : format_commit_message now [] = [] := by
  simp [format_commit_message, rustReplace, replaceGo_nil]

theorem fcm_ts (now : LocalDateTime) (x : List Char) :
    format_commit_message now (tsPat ++ x) =
      fmtTimestamp now ++ format_commit_message now x := by
  unfold format_commit_message rustReplace
  rw [replaceGo_at_self (fmtTimestamp now) tsPat_eq x,
    replaceGo_skip_braceFree (fmtDate now) datePat_eq (fmtTimestamp now) _
      (brace_not_mem_fmtTimestamp now),
    replaceGo_skip_braceFree (fmtTime now) timePat_eq (fmtTimestamp now) _
      (brace_not_mem_fmtTimestamp now)]

theorem fcm_date (now : LocalDateTime) (x : List Char) :
    format_commit_message now (datePat ++ x) =
      fmtDate now ++ format_commit_message now x := by
  unfold format_commit_message rustReplace
  rw [replaceGo_skip (fmtTimestamp now) tsPat_eq datePat x (ts_not_pre_date x) (by decide),
    replaceGo_at_self (fmtDate now) datePat_eq _,
    replaceGo_skip_braceFree (fmtTime now) timePat_eq (fmtDate now) _
      (brace_not_mem_fmtDate now)]

theorem fcm_time (now : LocalDateTime) (x : List Char) :
    format_commit_message now (timePat ++ x) =
      fmtTime now ++ format_commit_message now x := by
  unfold format_commit_message rustReplace
  rw [replaceGo_skip (fmtTimestamp now) tsPat_eq timePat x (ts_not_pre_time x) (by decide),
    replaceGo_skip (fmtDate now) datePat_eq timePat _ (time_not_pre_date _) (by decide),
    replaceGo_at_self (fmtTime now) timePat_eq _]

theorem fcm_none (now : LocalDateTime) (c : Char) (rest : List Char)
    (hts : tsPat.isPrefixOf (c :: rest) = false)
    (hd : datePat.isPrefixOf (c :: rest) = false)
    (htm : timePat.isPrefixOf (c :: rest) = false) :
    format_commit_message now (c :: rest) = c :: format_commit_message now rest := by
  unfold format_commit_message rustReplace
  obtain ⟨rts, rtss, hts_eq, hts_dig⟩ := fmtTimestamp_head_digit now
  obtain ⟨rd, rds, hd_eq, hd_dig⟩ := fmtDate_head_digit now
  by_cases hc : c = '{'
  · subst hc
    rw [replaceGo_cons_neg (fmtTimestamp now) hts]
    have hdTail : (['d', 'a', 't', 'e', '}'] : List Char).isPrefixOf rest = false := by
      rw [datePat_eq, List.isPrefixOf_cons₂] at hd
      simpa using hd
    have htTail : (['t', 'i', 'm', 'e', '}'] : List Char).isPrefixOf rest = false := by
      rw [timePat_eq, List.isPrefixOf_cons₂] at htm
      simpa using htm
    have hdTail2 : (['d', 'a', 't', 'e', '}'] : List Char).isPrefixOf
        (replaceGo tsPat (fmtTimestamp now) rest) = false :=
      not_isPrefixOf_replaceGo hts_eq hts_dig rest _ (by decide) hdTail
    have hd2 : datePat.isPrefixOf ('{' :: replaceGo tsPat (fmtTimestamp now) rest) = false := by
      rw [datePat_eq, List.isPrefixOf_cons₂]
      simp [hdTail2]
    rw [replaceGo_cons_neg (fmtDate now) hd2]
    have htTail2 : (['t', 'i', 'm', 'e', '}'] : List Char).isPrefixOf
        (replaceGo datePat (fmtDate now) (replaceGo tsPat (fmtTimestamp now) rest)) = false :=
      not_isPrefixOf_replaceGo hd_eq hd_dig _ _ (by decide)
        (not_isPrefixOf_replaceGo hts_eq hts_dig rest _ (by decide) htTail)
    have htm2 : timePat.isPrefixOf
        ('{' :: replaceGo datePat (fmtDate now) (replaceGo tsPat (fmtTimestamp now) rest)) =
        false := by
      rw [timePat_eq, List.isPrefixOf_cons₂]
      simp [htTail2]
    rw [replaceGo_cons_neg (fmtTime now) htm2]
  · rw [replaceGo_cons_neg (fmtTimestamp now) hts]
    have hd2 : datePat.isPrefixOf (c :: replaceGo tsPat (fmtTimestamp now) rest) = false := by
      rw [datePat_eq]
      exact isPrefixOf_cons_of_head_ne _ _ (fun he => hc he.symm)
    rw [replaceGo_cons_neg (fmtDate now) hd2]
    have htm2 : timePat.isPrefixOf
        (c :: replaceGo datePat (fmtDate now) (replaceGo tsPat (fmtTimestamp now) rest)) =
        false := by
      rw [timePat_eq]
      exact isPrefixOf_cons_of_head_ne _ _ (fun he => hc he.symm)
    rw [replaceGo_cons_neg (fmtTime now) htm2]

/-! ### Unfolding lemmas for `spec_substitution` -/

theorem spec_nil (now : LocalDateTime) : spec_substitution now [] = [] := by
  rw [spec_substitution]

theorem spec_ts (now : LocalDateTime) (x : List Char) :
    spec_substitution now (tsPat ++ x) =
      fmtTimestamp now ++ spec_substitution now x := by
  show spec_substitution now ('{' :: (['t', 'i', 'm', 'e', 's', 't', 'a', 'm', 'p', '}'] ++ x)) = _
  rw [spec_substitution]
  have h1 : tsPat.isPrefixOf ('{' :: (['t', 'i', 'm', 'e', 's', 't', 'a', 'm', 'p', '}'] ++ x)) =
      true := isPrefixOf_append_self tsPat x
  have hdrop : ((['t', 'i', 'm', 'e', 's', 't', 'a', 'm', 'p', '}'] : List Char) ++ x).drop
      (tsPat.length - 1) = x := by
    have h10 : tsPat.length - 1 =
        (['t', 'i', 'm', 'e', 's', 't', 'a', 'm', 'p', '}'] : List Char).length := by decide
    rw [h10, List.drop_left]
  rw [if_pos h1, hdrop]

theorem spec_date (now : LocalDateTime) (x : List Char) :
    spec_substitution now (datePat ++ x) =
      fmtDate now ++ spec_substitution now x := by
  show spec_substitution now ('{' :: (['d', 'a', 't', 'e', '}'] ++ x)) = _
  rw [spec_substitution]
  have h1 : tsPat.isPrefixOf ('{' :: (['d', 'a', 't', 'e', '}'] ++ x)) = false :=
    ts_not_pre_date x
  have h2 : datePat.isPrefixOf ('{' :: (['d', 'a', 't', 'e', '}'] ++ x)) = true :=
    isPrefixOf_append_self datePat x
  have hdrop : ((['d', 'a', 't', 'e', '}'] : List Char) ++ x).drop (datePat.length - 1) = x := by
    have h5 : datePat.length - 1 = (['d', 'a', 't', 'e', '}'] : List Char).length := by decide
    rw [h5, List.drop_left]
  rw [if_neg (by rw [h1]; exact Bool.false_ne_true), if_pos h2, hdrop]

theorem spec_time (now : LocalDateTime) (x : List Char) :
    spec_substitution now (timePat ++ x) =
      fmtTime now ++ spec_substitution now x := by
  show spec_substitution now ('{' :: (['t', 'i', 'm', 'e', '}'] ++ x)) = _
  rw [spec_substitution]
  have h1 : tsPat.isPrefixOf ('{' :: (['t', 'i', 'm', 'e', '}'] ++ x)) = false :=
    ts_not_pre_time x
  have h2 : datePat.isPrefixOf ('{' :: (['t', 'i', 'm', 'e', '}'] ++ x)) = false :=
    time_not_pre_date x
  have h3 : timePat.isPrefixOf ('{' :: (['t', 'i', 'm', 'e', '}'] ++ x)) = true :=
    isPrefixOf_append_self timePat x
  have hdrop : ((['t', 'i', 'm', 'e', '}'] : List Char) ++ x).drop (timePat.length - 1) = x := by
    have h5 : timePat.length - 1 = (['t', 'i', 'm', 'e', '}'] : List Char).length := by decide
    rw [h5, List.drop_left]
  rw [if_neg (by rw [h1]; exact Bool.false_ne_true),
    if_neg (by rw [h2]; exact Bool.false_ne_true), if_pos h3, hdrop]

theorem spec_none (now : LocalDateTime) (c : Char) (rest : List Char)
    (hts : tsPat.isPrefixOf (c :: rest) = false)
    (hd : datePat.isPrefixOf (c :: rest) = false)
    (htm : timePat.isPrefixOf (c :: rest) = false) :
    spec_substitution now (c :: rest) = c :: spec_substitution now rest := by
  rw [spec_substitution]
  rw [if_neg (by rw [hts]; exact Bool.false_ne_true),
    if_neg (by rw [hd]; exact Bool.false_ne_true),
    if_neg (by rw [htm]; exact Bool.false_ne_true)]

/-- Claim C3: commit-message formatting replaces each occurrence of the literal
substrings for the three placeholders with the corresponding rendering of the
current local time, and everything else (double braces, unmatched tokens)
passes through unchanged — the three successive `str::replace` calls of
`format_commit_message` compute exactly the one-pass literal substitution that
the specification describes; repeated occurrences of the same placeholder get
the identical rendering of the single `Local::now()` value. -/
theorem format_commit_message_matches_spec (now : LocalDateTime) (t : List Char) :
    format_commit_message now t = spec_substitution now t := by
  suffices h : ∀ (n : Nat) (u : List Char), u.length ≤ n →
      format_commit_message now u = spec_substitution now u from h t.length t le_rfl
  intro n
  induction n with
  | zero =>
    intro u hu
    have hnil : u = [] := List.eq_nil_of_length_eq_zero (Nat.le_zero.mp hu)
    subst hnil
    rw [fcm_nil, spec_nil]
  | succ n ih =>
    intro u hu
    cases u with
    | nil => rw [fcm_nil, spec_nil]
    | cons c rest =>
      simp only [List.length_cons, Nat.add_le_add_iff_right] at hu
      cases hts : tsPat.isPrefixOf (c :: rest) with
      | true =>
        obtain ⟨x, hx⟩ := eq_append_of_isPrefixOf _ _ hts
        have hlen : x.length ≤ n := by
          have := congrArg List.length hx
          simp only [List.length_cons, List.length_append, tsPat] at this
          omega
        rw [hx, fcm_ts, spec_ts, ih x hlen]
      | false =>
        cases hd : datePat.isPrefixOf (c :: rest) with
        | true =>
          obtain ⟨x, hx⟩ := eq_append_of_isPrefixOf _ _ hd
          have hlen : x.length ≤ n := by
            have := congrArg List.length hx
            simp only [List.length_cons, List.length_append, datePat] at this
            omega
          rw [hx, fcm_date, spec_date, ih x hlen]
        | false =>
          cases htm : timePat.isPrefixOf (c :: rest) with
          | true =>
            obtain ⟨x, hx⟩ := eq_append_of_isPrefixOf _ _ htm
            have hlen : x.length ≤ n := by
              have := congrArg List.length hx
              simp only [List.length_cons, List.length_append, timePat] at this
              omega
            rw [hx, fcm_time, spec_time, ih x hlen]
          | false =>
            rw [fcm_none now c rest hts hd htm, spec_none now c rest hts hd htm,
              ih rest hu]

/-! ## The per-repository sync engine (git.rs)

The libgit2 calls and the `git` subprocess invocations performed by one run of
`check_and_commit_sync` are modelled by an oracle record giving each call's
outcome.  The control flow of `push_changes`, `pull_rebase` and
`check_and_commit_sync` is transcribed over that oracle; alongside the
`Result` value each function returns the list of external actions it
performed, in order. -/

/-- Outcome of `repo.find_remote("origin")`: found, `ErrorCode::NotFound`
(handled), or any other error (propagated). -/
inductive RemoteLookup where
  | found
  | notFound
  | fail (e : String)
deriving DecidableEq

/-- Outcomes of the external calls made during one `check_and_commit_sync`.
For the two subprocess fields, `Except.error` is a failure to execute `git`
at all (the `with_context(...)?` path) while `.ok b` means the process ran
and `b` is `status.success()`. -/
structure GitOracle where
  /-- `open_repository` -/
  openRepo : Except String Unit
  /-- `has_changes` (status query with untracked, without ignored) -/
  hasChanges : Except String Bool
  /-- `stage_all_changes` -/
  stageAll : Except String Unit
  /-- `has_staged_changes` -/
  hasStaged : Except String Bool
  /-- `get_signature` + `create_commit` -/
  createCommit : Except String Unit
  /-- `repo.find_remote("origin")` inside `push_changes` -/
  pushRemote : RemoteLookup
  /-- the local-tip vs upstream-tip comparison; every failure branch of the
  Rust `match` (no upstream, detached HEAD, no head) yields `true` -/
  hasUnpushed : Bool
  /-- `git push` -/
  pushExec : Except String Bool
  /-- `repo.find_remote("origin")` inside `pull_rebase` -/
  pullRemote : RemoteLookup
  /-- `git pull --rebase` -/
  pullExec : Except String Bool
  /-- `GitRepository::open` after a successful pull -/
  reopenRepo : Except String Unit
  /-- `git rebase --abort` -/
  abortExec : Except String Bool

/-- External actions of a sync, in execution order. -/
inductive SyncEvent where
  | stageCall
  | commitCall
  /-- entering `push_changes`: the remote lookup and tip comparison -/
  | pushEval
  /-- spawning `git push` -/
  | pushCall
  /-- the desktop notification sent when the push process fails -/
  | notifyPushFailed
  /-- entering `pull_rebase`: the remote lookup -/
  | pullEval
  /-- spawning `git pull --rebase` -/
  | pullCall
  /-- the desktop notification sent when the pull process fails -/
  | notifyPullFailed
  /-- spawning `git rebase --abort` -/
  | abortCall
deriving DecidableEq

/-- git.rs `push_changes`, transcribed over the oracle.  The dead
`if !has_remote` early return of the source is unreachable (the match arm
that reaches it sets `has_remote = true`) and is omitted. -/
def push_changes (o : GitOracle) : Except String Bool × List SyncEvent :=
  match o.pushRemote with
  | .notFound => (.ok false, [.pushEval])
  | .fail e => (.error e, [.pushEval])
  | .found =>
    if o.hasUnpushed = false then
      (.ok true, [.pushEval])
    else
      match o.pushExec with
      | .error e => (.error e, [.pushEval, .pushCall])
      | .ok true => (.ok true, [.pushEval, .pushCall])
      | .ok false => (.ok false, [.pushEval, .pushCall, .notifyPushFailed])

/-- git.rs `pull_rebase`, transcribed over the oracle.  When the pull process
fails, a notification is sent and `git rebase --abort` is attempted; the three
arms of the Rust `match` on the abort outcome only log, so all three produce
the same result. -/
def pull_rebase (o : GitOracle) : Except String Bool × List SyncEvent :=
  match o.pullRemote with
  | .notFound => (.ok false, [.pullEval])
  | .fail e => (.error e, [.pullEval])
  | .found =>
    match o.pullExec with
    | .error e => (.error e, [.pullEval, .pullCall])
    | .ok true =>
      match o.reopenRepo with
      | .error e => (.error e, [.pullEval, .pullCall])
      | .ok _ => (.ok true, [.pullEval, .pullCall])
    | .ok false =>
      match o.abortExec with
      | .ok true => (.ok false, [.pullEval, .pullCall, .notifyPullFailed, .abortCall])
      | .ok false => (.ok false, [.pullEval, .pullCall, .notifyPullFailed, .abortCall])
      | .error _ => (.ok false, [.pullEval, .pullCall, .notifyPullFailed, .abortCall])

/-- git.rs `check_and_commit_sync`: open, query status; when dirty, stage and,
if the index has staged changes, commit and push; finally pull-rebase; every
`?` short-circuits with the error. -/
def check_and_commit_sync (o : GitOracle) : Except String Bool × List SyncEvent :=
  match o.openRepo with
  | .error e => (.error e, [])
  | .ok _ =>
    match o.hasChanges with
    | .error e => (.error e, [])
    | .ok hasLocal =>
      if hasLocal then
        match o.stageAll with
        | .error e => (.error e, [.stageCall])
        | .ok _ =>
          match o.hasStaged with
          | .error e => (.error e, [.stageCall])
          | .ok staged =>
            if staged then
              match o.createCommit with
              | .error e => (.error e, [.stageCall, .commitCall])
              | .ok _ =>
                match push_changes o with
                | (.error e, pev) => (.error e, [.stageCall, .commitCall] ++ pev)
                | (.ok _, pev) =>
                  match pull_rebase o with
                  | (.error e, qev) => (.error e, [.stageCall, .commitCall] ++ pev ++ qev)
                  | (.ok _, qev) => (.ok true, [.stageCall, .commitCall] ++ pev ++ qev)
            else
              match pull_rebase o with
              | (.error e, qev) => (.error e, [.stageCall] ++ qev)
              | (.ok _, qev) => (.ok false, [.stageCall] ++ qev)
      else
        match pull_rebase o with
        | (.error e, qev) => (.error e, qev)
        | (.ok _, qev) => (.ok false, qev)

/-! ### Helper lemmas about the sync engine -/

theorem push_changes_error_source (o : GitOracle) (e : String)
    (h : (push_changes o).1 = .error e) :
    o.pushRemote = .fail e ∨ o.pushExec = .error e := by
  unfold push_changes at h
  rcases hr : o.pushRemote with _ | _ | e' <;> rw [hr] at h
  · by_cases hu : o.hasUnpushed = false
    · rw [if_pos hu] at h
      simp at h
    · rw [if_neg hu] at h
      rcases hx : o.pushExec with e2 | b <;> rw [hx] at h
      · right
        simp only at h
        exact h
      · cases b <;> simp at h
  · simp at h
  · left
    simp only at h
    exact congrArg RemoteLookup.fail (Except.error.inj h)

theorem pull_rebase_error_source (o : GitOracle) (e : String)
    (h : (pull_rebase o).1 = .error e) :
    o.pullRemote = .fail e ∨ o.pullExec = .error e ∨ o.reopenRepo = .error e := by
  unfold pull_rebase at h
  rcases hr : o.pullRemote with _ | _ | e' <;> rw [hr] at h
  · rcases hx : o.pullExec with e2 | b <;> rw [hx] at h
    · right; left
      simp only at h
      exact h
    · cases b
      · rcases ha : o.abortExec with e3 | b' <;> rw [ha] at h
        · simp at h
        · cases b' <;> simp at h
      · rcases ho : o.reopenRepo with e3 | u <;> rw [ho] at h
        · right; right
          simp only at h
          exact congrArg Except.error (Except.error.inj h)
        · simp at h
  · simp at h
  · left
    simp only at h
    exact congrArg RemoteLookup.fail (Except.error.inj h)

theorem pull_rebase_trace_cases (o : GitOracle) :
    (pull_rebase o).2 = [.pullEval] ∨ (pull_rebase o).2 = [.pullEval, .pullCall] ∨
    (pull_rebase o).2 = [.pullEval, .pullCall, .notifyPullFailed, .abortCall] := by
  unfold pull_rebase
  rcases o.pullRemote with _ | _ | e
  · rcases o.pullExec with e | b
    · simp
    · cases b
      · rcases o.abortExec with e | b'
        · simp
        · cases b' <;> simp
      · rcases o.reopenRepo with e | u <;> simp
  · simp
  · simp

/-- On the clean path, `check_and_commit_sync` is exactly `pull_rebase`
followed by returning `committed = false`. -/
theorem ccs_clean (o : GitOracle) (h1 : o.openRepo = .ok ())
    (h2 : o.hasChanges = .ok false) :
    check_and_commit_sync o =
      ((match (pull_rebase o).1 with
        | .error e => Except.error e
        | .ok _ => Except.ok false), (pull_rebase o).2) := by
  rcases hp : pull_rebase o with ⟨r, ev⟩
  unfold check_and_commit_sync
  rw [h1, h2, hp]
  rcases r with e | b <;> simp

/-! ### Concrete oracles -/

/-- A repository that opens fine and reports a clean status; it has a remote
and unpushed commits, and both push and pull would succeed if invoked. -/
def cleanOracle : GitOracle where
  openRepo := .ok ()
  hasChanges := .ok false
  stageAll := .ok ()
  hasStaged := .ok false
  createCommit := .ok ()
  pushRemote := .found
  hasUnpushed := true
  pushExec := .ok true
  pullRemote := .found
  pullExec := .ok true
  reopenRepo := .ok ()
  abortExec := .ok true

/-- Like `cleanOracle`, but the working-copy status query itself fails. -/
def statusFailOracle : GitOracle :=
  { cleanOracle with hasChanges := .error "Failed to get repository status" }

/-- A dirty repository whose commit succeeds but whose push and pull
subprocesses both run and fail, and whose rebase abort itself fails. -/
def remoteFailOracle : GitOracle where
  openRepo := .ok ()
  hasChanges := .ok true
  stageAll := .ok ()
  hasStaged := .ok true
  createCommit := .ok ()
  pushRemote := .found
  hasUnpushed := true
  pushExec := .ok false
  pullRemote := .found
  pullExec := .ok false
  reopenRepo := .ok ()
  abortExec := .error "abort spawn failed"

/-! ### C1 -/

/-- Counterexample to claim C1 as stated: on a clean repository (status query
returns no modifications) the sync never enters `push_changes` at all — the
trace holds no push-evaluation event — even though a remote exists and the
local tip differs from upstream; it proceeds directly to the pull-rebase. -/
theorem c1_counterexample :
    cleanOracle.hasChanges = Except.ok false ∧
    cleanOracle.pushRemote = RemoteLookup.found ∧
    cleanOracle.hasUnpushed = true ∧
    (check_and_commit_sync cleanOracle).2 = [SyncEvent.pullEval, SyncEvent.pullCall] ∧
    SyncEvent.pushEval ∉ (check_and_commit_sync cleanOracle).2 :=
  ⟨rfl, rfl, rfl, rfl, by decide⟩

/-- Claim C1 (amended): for every repository whose working-copy status reports
no modifications, a sync performs no staging, no commit, and also no push
evaluation — step 5 is skipped entirely, not merely the push itself — and the
sync consists exactly of the step-6 pull-rebase, whose result determines the
outcome (`committed = false` on success, the error on failure). -/
theorem c1_clean_sync_skips_push (o : GitOracle)
    (h1 : o.openRepo = .ok ()) (h2 : o.hasChanges = .ok false) :
    SyncEvent.stageCall ∉ (check_and_commit_sync o).2 ∧
    SyncEvent.commitCall ∉ (check_and_commit_sync o).2 ∧
    SyncEvent.pushEval ∉ (check_and_commit_sync o).2 ∧
    SyncEvent.pullEval ∈ (check_and_commit_sync o).2 ∧
    (∀ b, (pull_rebase o).1 = .ok b → (check_and_commit_sync o).1 = .ok false) ∧
    (∀ e, (pull_rebase o).1 = .error e → (check_and_commit_sync o).1 = .error e) := by
  have hc := ccs_clean o h1 h2
  have htr := pull_rebase_trace_cases o
  refine ⟨?_, ?_, ?_, ?_, ?_, ?_⟩
  · rw [hc]
    show SyncEvent.stageCall ∉ (pull_rebase o).2
    rcases htr with h | h | h <;> rw [h] <;> decide
  · rw [hc]
    show SyncEvent.commitCall ∉ (pull_rebase o).2
    rcases htr with h | h | h <;> rw [h] <;> decide
  · rw [hc]
    show SyncEvent.pushEval ∉ (pull_rebase o).2
    rcases htr with h | h | h <;> rw [h] <;> decide
  · rw [hc]
    show SyncEvent.pullEval ∈ (pull_rebase o).2
    rcases htr with h | h | h <;> rw [h] <;> decide
  · intro b hb
    rw [hc]
    show (match (pull_rebase o).1 with
      | .error e => Except.error e
      | .ok _ => Except.ok false) = Except.ok false
    rw [hb]
  · intro e he
    rw [hc]
    show (match (pull_rebase o).1 with
      | .error e => Except.error e
      | .ok _ => Except.ok false) = Except.error e
    rw [he]

/-- Witness for C1 (amended) at `cleanOracle`. -/
theorem c1_clean_sync_skips_push_witness :
    SyncEvent.pushEval ∉ (check_and_commit_sync cleanOracle).2 ∧
    SyncEvent.pullEval ∈ (check_and_commit_sync cleanOracle).2 :=
  ⟨(c1_clean_sync_skips_push cleanOracle rfl rfl).2.2.1,
   (c1_clean_sync_skips_push cleanOracle rfl rfl).2.2.2.1⟩

/-! ### C2 -/

/-- Every error the outcome can carry originates in one of the `?`-propagated
call sites; an executed push or pull whose process merely exits unsuccessfully
is never among them. -/
theorem check_error_source (o : GitOracle) (e : String)
    (he : (check_and_commit_sync o).1 = .error e) :
    o.openRepo = .error e ∨ o.hasChanges = .error e ∨ o.stageAll = .error e ∨
    o.hasStaged = .error e ∨ o.createCommit = .error e ∨ o.pushRemote = .fail e ∨
    o.pushExec = .error e ∨ o.pullRemote = .fail e ∨ o.pullExec = .error e ∨
    o.reopenRepo = .error e := by
  unfold check_and_commit_sync at he
  rcases h1 : o.openRepo with e1 | u1 <;> rw [h1] at he
  · left
    simp only at he
    exact congrArg Except.error (Except.error.inj he)
  · rcases h2 : o.hasChanges with e2 | hl <;> rw [h2] at he
    · right; left
      simp only at he
      exact congrArg Except.error (Except.error.inj he)
    · cases hl
      · simp only [if_neg (by decide : ¬(false = true))] at he
        rcases hq : pull_rebase o with ⟨r, ev⟩
        rw [hq] at he
        rcases r with e3 | b3
        · simp only at he
          have : (pull_rebase o).1 = .error e := by
            rw [hq]
            exact congrArg Except.error (Except.error.inj he)
          rcases pull_rebase_error_source o e this with h | h | h
          · exact Or.inr (Or.inr (Or.inr (Or.inr (Or.inr (Or.inr (Or.inr (Or.inl h)))))))
          · exact Or.inr (Or.inr (Or.inr (Or.inr (Or.inr (Or.inr (Or.inr (Or.inr (Or.inl h))))))))
          · exact Or.inr (Or.inr (Or.inr (Or.inr (Or.inr (Or.inr (Or.inr (Or.inr (Or.inr h))))))))
        · simp at he
      · simp only [if_pos rfl] at he
        rcases h3 : o.stageAll with e3 | u3 <;> rw [h3] at he
        · right; right; left
          simp only at he
          exact congrArg Except.error (Except.error.inj he)
        · rcases h4 : o.hasStaged with e4 | st <;> rw [h4] at he
          · right; right; right; left
            simp only at he
            exact congrArg Except.error (Except.error.inj he)
          · cases st
            · simp only [if_neg (by decide : ¬(false = true))] at he
              rcases hq : pull_rebase o with ⟨r, ev⟩
              rw [hq] at he
              rcases r with e5 | b5
              · simp only at he
                have : (pull_rebase o).1 = .error e := by
                  rw [hq]
                  exact congrArg Except.error (Except.error.inj he)
                rcases pull_rebase_error_source o e this with h | h | h
                · exact Or.inr (Or.inr (Or.inr (Or.inr (Or.inr (Or.inr (Or.inr (Or.inl h)))))))
                · exact Or.inr (Or.inr (Or.inr (Or.inr (Or.inr (Or.inr (Or.inr (Or.inr (Or.inl h))))))))
                · exact Or.inr (Or.inr (Or.inr (Or.inr (Or.inr (Or.inr (Or.inr (Or.inr (Or.inr h))))))))
              · simp at he
            · simp only [if_pos rfl] at he
              rcases h5 : o.createCommit with e5 | u5 <;> rw [h5] at he
              · right; right; right; right; left
                simp only at he
                exact congrArg Except.error (Except.error.inj he)
              · rcases hp : push_changes o with ⟨pr, pev⟩
                rw [hp] at he
                rcases pr with e6 | b6
                · simp only at he
                  have : (push_changes o).1 = .error e := by
                    rw [hp]
                    exact congrArg Except.error (Except.error.inj he)
                  rcases push_changes_error_source o e this with h | h
                  · exact Or.inr (Or.inr (Or.inr (Or.inr (Or.inr (Or.inl h)))))
                  · exact Or.inr (Or.inr (Or.inr (Or.inr (Or.inr (Or.inr (Or.inl h))))))
                · simp only at he
                  rcases hq : pull_rebase o with ⟨r, ev⟩
                  rw [hq] at he
                  rcases r with e7 | b7
                  · simp only at he
                    have : (pull_rebase o).1 = .error e := by
                      rw [hq]
                      exact congrArg Except.error (Except.error.inj he)
                    rcases pull_rebase_error_source o e this with h | h | h
                    · exact Or.inr (Or.inr (Or.inr (Or.inr (Or.inr (Or.inr (Or.inr (Or.inl h)))))))
                    · exact Or.inr (Or.inr (Or.inr (Or.inr (Or.inr (Or.inr (Or.inr (Or.inr (Or.inl h))))))))
                    · exact Or.inr (Or.inr (Or.inr (Or.inr (Or.inr (Or.inr (Or.inr (Or.inr (Or.inr h))))))))
                  · simp at he

/-- When every local git operation succeeds and the push and pull subprocesses
both execute, the outcome is `Ok committed` whatever their exit statuses; a
failed exit only adds a notification. -/
theorem check_push_pull_nonfatal (o : GitOracle) (h s px py : Bool)
    (h1 : o.openRepo = .ok ()) (h2 : o.hasChanges = .ok h)
    (h3 : o.stageAll = .ok ()) (h4 : o.hasStaged = .ok s)
    (h5 : o.createCommit = .ok ()) (h6 : o.pushRemote = .found)
    (h7 : o.hasUnpushed = true) (h8 : o.pushExec = .ok px)
    (h9 : o.pullRemote = .found) (h10 : o.pullExec = .ok py)
    (h11 : o.reopenRepo = .ok ()) :
    (check_and_commit_sync o).1 = .ok (h && s) ∧
    (h = true → s = true → px = false →
      SyncEvent.notifyPushFailed ∈ (check_and_commit_sync o).2) ∧
    (py = false → SyncEvent.notifyPullFailed ∈ (check_and_commit_sync o).2) := by
  cases h <;> cases s <;> cases px <;> cases py <;>
    rcases hab : o.abortExec with e | b <;> (try cases b) <;>
    simp [check_and_commit_sync, push_changes, pull_rebase,
      h1, h2, h3, h4, h5, h6, h7, h8, h9, h10, h11, hab]

/-- Counterexample to claim C2 as stated: the status query of step 2 can fail
and that failure is propagated into the outcome's error, even though step 1
(opening) and step 4 (commit creation) both succeed — so steps 1 and 4 are not
the only sources of the outcome's error. -/
theorem c2_counterexample :
    statusFailOracle.openRepo = Except.ok () ∧
    statusFailOracle.createCommit = Except.ok () ∧
    (check_and_commit_sync statusFailOracle).1 =
      Except.error "Failed to get repository status" :=
  ⟨rfl, rfl, rfl⟩

/-- Claim C2 (amended): the outcome's error is set only by a failing local git
operation (open, status query, staging, staged-check, commit creation) or by a
failure to execute the push or pull subprocess at all (or to reopen the
repository after a successful pull); a push or pull that runs and exits
unsuccessfully never sets the outcome's error — the outcome still reports
committed as computed, and the failure is surfaced as a best-effort
notification. -/
theorem c2_error_field_scope :
    (∀ (o : GitOracle) (e : String), (check_and_commit_sync o).1 = .error e →
      o.openRepo = .error e ∨ o.hasChanges = .error e ∨ o.stageAll = .error e ∨
      o.hasStaged = .error e ∨ o.createCommit = .error e ∨ o.pushRemote = .fail e ∨
      o.pushExec = .error e ∨ o.pullRemote = .fail e ∨ o.pullExec = .error e ∨
      o.reopenRepo = .error e) ∧
    (∀ (o : GitOracle) (h s px py : Bool),
      o.openRepo = .ok () → o.hasChanges = .ok h → o.stageAll = .ok () →
      o.hasStaged = .ok s → o.createCommit = .ok () → o.pushRemote = .found →
      o.hasUnpushed = true → o.pushExec = .ok px → o.pullRemote = .found →
      o.pullExec = .ok py → o.reopenRepo = .ok () →
      (check_and_commit_sync o).1 = .ok (h && s) ∧
      (h = true → s = true → px = false →
        SyncEvent.notifyPushFailed ∈ (check_and_commit_sync o).2) ∧
      (py = false → SyncEvent.notifyPullFailed ∈ (check_and_commit_sync o).2)) :=
  ⟨check_error_source, check_push_pull_nonfatal⟩

/-- Witness for C2 (amended): with a commit made and both subprocesses failing
their exits, the outcome is `Ok true` with no error, and both notifications
are in the trace. -/
theorem c2_error_field_scope_witness :
    (check_and_commit_sync remoteFailOracle).1 = .ok true ∧
    SyncEvent.notifyPushFailed ∈ (check_and_commit_sync remoteFailOracle).2 ∧
    SyncEvent.notifyPullFailed ∈ (check_and_commit_sync remoteFailOracle).2 := by
  have hmain := c2_error_field_scope.2 remoteFailOracle true true false false
    rfl rfl rfl rfl rfl rfl rfl rfl rfl rfl rfl
  exact ⟨hmain.1, hmain.2.1 rfl rfl rfl, hmain.2.2 rfl⟩

/-! ### C7 -/

/-- Claim C7: whenever the pull subprocess runs and fails, `pull_rebase` sends
the notification, attempts `git rebase --abort` before returning, and returns
`Ok false` whatever the abort attempt's own outcome (an abort failure is only
logged); lifted to the whole sync, a failing pull leaves the outcome at
`Ok committed` — the pull failure is non-fatal to the cycle. -/
theorem c7_pull_failure_aborts_rebase :
    (∀ o : GitOracle, o.pullRemote = .found → o.pullExec = .ok false →
      (pull_rebase o).1 = .ok false ∧
      SyncEvent.notifyPullFailed ∈ (pull_rebase o).2 ∧
      SyncEvent.abortCall ∈ (pull_rebase o).2) ∧
    (∀ (o : GitOracle) (h s px : Bool),
      o.openRepo = .ok () → o.hasChanges = .ok h → o.stageAll = .ok () →
      o.hasStaged = .ok s → o.createCommit = .ok () → o.pushRemote = .found →
      o.hasUnpushed = true → o.pushExec = .ok px → o.pullRemote = .found →
      o.pullExec = .ok false →
      (check_and_commit_sync o).1 = .ok (h && s) ∧
      SyncEvent.abortCall ∈ (check_and_commit_sync o).2) := by
  constructor
  · intro o h9 h10
    have htr : pull_rebase o =
        (.ok false, [.pullEval, .pullCall, .notifyPullFailed, .abortCall]) := by
      unfold pull_rebase
      rw [h9, h10]
      rcases o.abortExec with e | b
      · rfl
      · cases b <;> rfl
    rw [htr]
    exact ⟨rfl, by decide, by decide⟩
  · intro o h s px h1 h2 h3 h4 h5 h6 h7 h8 h9 h10
    cases h <;> cases s <;> cases px <;>
      rcases hab : o.abortExec with e | b <;> (try cases b) <;>
      simp [check_and_commit_sync, push_changes, pull_rebase,
        h1, h2, h3, h4, h5, h6, h7, h8, h9, h10, hab]

/-- Witness for C7 at `remoteFailOracle`, where the abort attempt itself
fails: the pull failure still leaves the outcome at `Ok true` and the abort
was attempted. -/
theorem c7_pull_failure_aborts_rebase_witness :
    (pull_rebase remoteFailOracle).1 = .ok false ∧
    SyncEvent.abortCall ∈ (pull_rebase remoteFailOracle).2 ∧
    remoteFailOracle.abortExec = .error "abort spawn failed" ∧
    (check_and_commit_sync remoteFailOracle).1 = .ok true := by
  have hpull := c7_pull_failure_aborts_rebase.1 remoteFailOracle rfl rfl
  have hcycle := c7_pull_failure_aborts_rebase.2 remoteFailOracle true true false
    rfl rfl rfl rfl rfl rfl rfl rfl rfl rfl
  exact ⟨hpull.1, hpull.2.2, rfl, hcycle.1⟩

/-! ## Shared configuration and wire protocol (autogit-shared)

`PathBuf` is modelled as `String`; `commit_message_template` as `List Char`
(consistent with the formatting model above). -/

/-- config.rs `Repository`. -/
structure Repository where
  path : String
  auto_commit : Bool
  commit_message_template : List Char
deriving DecidableEq

/-- config.rs `DaemonConfig`. -/
structure DaemonConfig where
  check_interval_seconds : Nat
  enable_tray : Bool
deriving DecidableEq

/-- config.rs `Config`. -/
structure Config where
  daemon : DaemonConfig
  repositories : List Repository
deriving DecidableEq

/-- protocol.rs `ResponseStatus`. -/
inductive ResponseStatus where
  | ok
  | error
deriving DecidableEq

/-- protocol.rs `RepoDetail`. -/
structure RepoDetail where
  path : String
  committed : Bool
  files_changed : Option Nat
  error : Option String
deriving DecidableEq

/-- protocol.rs `ResponseData`. -/
inductive ResponseData where
  | trigger (repos_checked : Nat) (repos_committed : Nat) (details : List RepoDetail)
  | status (uptime_seconds : Nat) (check_interval_seconds : Nat) (repositories_count : Nat)
deriving DecidableEq

/-- protocol.rs `Response`. -/
structure Response where
  status : ResponseStatus
  message : String
  data : Option ResponseData
deriving DecidableEq

/-- protocol.rs `Response::ok`. -/
def Response.mkOk (message : String) : Response :=
  { status := .ok, message := message, data := none }

/-- protocol.rs `Response::ok_with_data`. -/
def Response.ok_with_data (message : String) (data : ResponseData) : Response :=
  { status := .ok, message := message, data := some data }

/-- protocol.rs `Command`. -/
inductive Command where
  | trigger
  | status
  | ping
deriving DecidableEq

/-! ## The daemon event loop branches (autogit-daemon/src/main.rs, run_daemon)

Each `tokio::select!` branch that the claims refer to is transcribed as a pure
function from the relevant state to the list of repositories handed to the
sync engine (and, for the reload branch, the successor state). -/

/-- main.rs startup (lines 40–53): the repositories handed to
`git::initialize_repository` before the loop starts — every configured
repository except those with `auto_commit = false`, in order. -/
def startup_repos (cfg : Config) : List Repository :=
  cfg.repositories.filter (fun r => r.auto_commit)

/-- run_daemon timer-tick branch: when the suspended flag is set the tick is
consumed and nothing runs (`continue`); otherwise every enabled repository is
handed to `git::check_and_commit`, in configured order. -/
def timer_tick_step (suspended : Bool) (cfg : Config) : List Repository :=
  if suspended then [] else cfg.repositories.filter (fun r => r.auto_commit)

/-- run_daemon tray-action branch, `TrayAction::TriggerSync`: skipped entirely
while suspended, otherwise identical to a timer tick. -/
def tray_trigger_step (suspended : Bool) (cfg : Config) : List Repository :=
  if suspended then [] else cfg.repositories.filter (fun r => r.auto_commit)

/-- State carried across reloads by `run_daemon`: the shared configuration
cell, the armed timer interval, and whether a tray handle is active. -/
structure DaemonState where
  config : Config
  timerInterval : Nat
  trayActive : Bool
deriving DecidableEq

/-- run_daemon reload branch (lines 245–338).  `parsed` is the outcome of
`Config::load`; `traySpawnOk` is whether a tray spawn attempt would succeed.
On a parse failure the previous state is kept untouched and nothing is
initialized.  On success: the repositories of the new configuration whose path
is absent from the old one are initialized (skipping `auto_commit = false`
ones) and returned; the configuration is replaced; the timer is re-armed only
if the interval changed; the tray is started or dropped only if its enable
flag changed. -/
def reload_step (st : DaemonState) (parsed : Except String Config)
    (traySpawnOk : Bool) : DaemonState × List Repository :=
  match parsed with
  | .error _ => (st, [])
  | .ok newConfig =>
    let newRepos := newConfig.repositories.filter
      (fun nr => !(st.config.repositories.any (fun old => old.path == nr.path)))
    let inited := newRepos.filter (fun r => r.auto_commit)
    let newTimer :=
      if st.config.daemon.check_interval_seconds ≠ newConfig.daemon.check_interval_seconds
      then newConfig.daemon.check_interval_seconds
      else st.timerInterval
    let newTray :=
      if st.config.daemon.enable_tray ≠ newConfig.daemon.enable_tray
      then (if newConfig.daemon.enable_tray then traySpawnOk else false)
      else st.trayActive
    ({ config := newConfig, timerInterval := newTimer, trayActive := newTray }, inited)

/-! ## The IPC handlers (autogit-daemon/src/socket.rs)

The outcome of `git::check_and_commit` for each repository is an oracle
argument `gitResult : Repository → Except String Bool`. -/

/-- Accumulator of the repository loop in `handle_trigger_command`; `synced`
additionally records, in order, the repositories actually handed to
`git::check_and_commit`. -/
structure TriggerAcc where
  repos_checked : Nat
  repos_committed : Nat
  details : List RepoDetail
  synced : List Repository
deriving DecidableEq

/-- One iteration of the repository loop of `handle_trigger_command`
(socket.rs lines 135–168): disabled repositories are skipped; otherwise the
repository is checked, and the detail row records the outcome —
`files_changed` is `Some(0)` when a commit was made and `None` otherwise
(the source's TODO: the real count is never computed). -/
def trigger_step (gitResult : Repository → Except String Bool)
    (acc : TriggerAcc) (repo : Repository) : TriggerAcc :=
  if repo.auto_commit = false then acc
  else
    match gitResult repo with
    | .ok committed =>
      { repos_checked := acc.repos_checked + 1
        repos_committed := acc.repos_committed + (if committed then 1 else 0)
        details := acc.details ++
          [{ path := repo.path, committed := committed,
             files_changed := if committed then some 0 else none, error := none }]
        synced := acc.synced ++ [repo] }
    | .error e =>
      { repos_checked := acc.repos_checked + 1
        repos_committed := acc.repos_committed
        details := acc.details ++
          [{ path := repo.path, committed := false,
             files_changed := none, error := some e }]
        synced := acc.synced ++ [repo] }

/-- The whole repository loop of `handle_trigger_command`. -/
def trigger_fold (gitResult : Repository → Except String Bool)
    (cfg : Config) : TriggerAcc :=
  cfg.repositories.foldl (trigger_step gitResult) ⟨0, 0, [], []⟩

/-- socket.rs `handle_trigger_command` (lines 127–181). -/
def handle_trigger_command (cfg : Config)
    (gitResult : Repository → Except String Bool) : Response :=
  let acc := trigger_fold gitResult cfg
  Response.ok_with_data
    ("Checked " ++ toString acc.repos_checked ++ " repositories, committed changes in "
      ++ toString acc.repos_committed)
    (.trigger acc.repos_checked acc.repos_committed acc.details)

/-- socket.rs `handle_status_command`. -/
def handle_status_command (cfg : Config) (uptime : Nat) : Response :=
  Response.ok_with_data "Daemon status"
    (.status uptime cfg.daemon.check_interval_seconds cfg.repositories.length)

/-- Outcome of the `read_line` on an accepted connection: an I/O error, or the
line read (the empty string meaning the peer closed without sending). -/
inductive ReadOutcome where
  | fail (e : String)
  | line (s : String)
deriving DecidableEq

/-- The per-connection inputs of `handle_connection_impl`: the read outcome,
the result of `Command::from_json` on the line read, and the outcome of
writing the response back (`write_all` followed by `flush`, both of which
propagate with `?`; a failure of either counts as the response not having
been delivered). -/
structure ConnInput where
  read : ReadOutcome
  parse : Except String Command
  write : Except String Unit

/-- socket.rs `handle_connection_impl` (lines 62–111): read one line (an error
propagates); an empty line is a silent no-op; parse the command (a failure
propagates); execute it and write the one response back, where the
`write_all`/`flush` pair can itself fail and propagate.  The returned
`Option Response` is what was successfully written on the connection. -/
def handle_connection_impl (inp : ConnInput) (cfg : Config) (uptime : Nat)
    (gitResult : Repository → Except String Bool) :
    Except String (Option Response) :=
  match inp.read with
  | .fail e => .error e
  | .line s =>
    if s = "" then .ok none
    else
      match inp.parse with
      | .error e => .error e
      | .ok c =>
        let response :=
          match c with
          | .ping => Response.mkOk "pong"
          | .status => handle_status_command cfg uptime
          | .trigger => handle_trigger_command cfg gitResult
        match inp.write with
        | .error e => .error e
        | .ok _ => .ok (some response)

/-- socket.rs `handle_connection` (lines 52–60): an error from the handler is
only logged; nothing further is written on the connection. -/
def handle_connection (inp : ConnInput) (cfg : Config) (uptime : Nat)
    (gitResult : Repository → Except String Bool) : Option Response :=
  match handle_connection_impl inp cfg uptime gitResult with
  | .error _ => none
  | .ok written => written

/-- Modelled from the spec: the suspended-aware IPC trigger handler.  The
`handle_connection` in src/socket.rs predates the `suspended` argument that
main.rs passes (src/main.rs line 192), so the current handler is missing from
the sources; the spec says a manual trigger issued while suspended is a no-op
that still returns a well-formed response.  Returns the response together with
the repositories handed to the sync engine. -/
def handle_trigger_command_suspended (suspended : Bool) (cfg : Config)
    (gitResult : Repository → Except String Bool) : Response × List Repository :=
  if suspended then
    (Response.mkOk "Daemon is suspended", [])
  else
    (handle_trigger_command cfg gitResult, (trigger_fold gitResult cfg).synced)

/-! ### C4 -/

/-- Claim C4: a reload whose content fails to parse leaves the active
configuration entirely unchanged — the whole daemon state (configuration,
armed timer, tray) is exactly what it was, in particular the check interval
and the repository list, and no repository is initialized; a reload is never
partially applied. -/
theorem c4_failed_reload_keeps_config (st : DaemonState) (e : String)
    (traySpawnOk : Bool) :
    reload_step st (.error e) traySpawnOk = (st, []) ∧
    (reload_step st (.error e) traySpawnOk).1.config.daemon.check_interval_seconds =
      st.config.daemon.check_interval_seconds ∧
    (reload_step st (.error e) traySpawnOk).1.config.repositories =
      st.config.repositories :=
  ⟨rfl, rfl, rfl⟩

/-! ### C5 -/

/-- Claim C5: a successful reload initializes exactly those repositories of
the new configuration that are enabled and whose path is absent from the old
configuration; a repository whose path already existed in the old
configuration is never re-initialized, whatever its other fields. -/
theorem c5_reload_inits_only_new_paths (st : DaemonState) (newConfig : Config)
    (traySpawnOk : Bool) (r : Repository) :
    r ∈ (reload_step st (.ok newConfig) traySpawnOk).2 ↔
      (r ∈ newConfig.repositories ∧ r.auto_commit = true ∧
        ∀ old ∈ st.config.repositories, old.path ≠ r.path) := by
  simp only [reload_step, List.mem_filter, Bool.not_eq_true', List.any_eq_false,
    beq_eq_false_iff_ne, beq_iff_eq, ne_eq]
  tauto

/-! ### C6 -/

theorem trigger_fold_synced_enabled (gitResult : Repository → Except String Bool)
    (l : List Repository) :
    ∀ acc : TriggerAcc, (∀ r ∈ acc.synced, r.auto_commit = true) →
      ∀ r ∈ (l.foldl (trigger_step gitResult) acc).synced, r.auto_commit = true := by
  induction l with
  | nil => intro acc hacc r hr; exact hacc r hr
  | cons x xs ih =>
    intro acc hacc r hr
    rw [List.foldl_cons] at hr
    refine ih _ ?_ r hr
    intro d hd
    unfold trigger_step at hd
    by_cases hx : x.auto_commit = false
    · rw [if_pos hx] at hd
      exact hacc d hd
    · rw [if_neg hx] at hd
      have hxa : x.auto_commit = true := by
        cases hxc : x.auto_commit
        · exact absurd hxc hx
        · rfl
      have hd' : d ∈ acc.synced ++ [x] := by
        rcases hgr : gitResult x with e | b <;> rw [hgr] at hd <;> exact hd
      rcases List.mem_append.mp hd' with h | h
      · exact hacc d h
      · rw [List.mem_singleton.mp h]
        exact hxa

/-- Claim C6: a repository with `auto_commit = false` is never handed to the
sync engine by any trigger path — not by startup reconciliation, not by a
timer tick, not by the IPC trigger command, not by a tray action. -/
theorem c6_disabled_repo_never_synced (cfg : Config) (suspended : Bool)
    (gitResult : Repository → Except String Bool) (r : Repository)
    (hr : r.auto_commit = false) :
    r ∉ startup_repos cfg ∧ r ∉ timer_tick_step suspended cfg ∧
    r ∉ tray_trigger_step suspended cfg ∧ r ∉ (trigger_fold gitResult cfg).synced := by
  refine ⟨?_, ?_, ?_, ?_⟩
  · intro hmem
    simp [startup_repos, List.mem_filter, hr] at hmem
  · intro hmem
    cases suspended <;> simp [timer_tick_step, List.mem_filter, hr] at hmem
  · intro hmem
    cases suspended <;> simp [tray_trigger_step, List.mem_filter, hr] at hmem
  · intro hmem
    have ht := trigger_fold_synced_enabled gitResult cfg.repositories ⟨0, 0, [], []⟩
      (by intro d hd; exact absurd hd (List.not_mem_nil d)) r hmem
    rw [hr] at ht
    exact absurd ht (by decide)

/-- A two-repository configuration whose second repository is disabled. -/
def cfgTwo : Config :=
  { daemon := { check_interval_seconds := 300, enable_tray := true }
    repositories :=
      [{ path := "/test/repo1", auto_commit := true, commit_message_template := [] },
       { path := "/test/repo2", auto_commit := false, commit_message_template := [] }] }

/-- The disabled repository of `cfgTwo`. -/
def repoDisabled : Repository :=
  { path := "/test/repo2", auto_commit := false, commit_message_template := [] }

/-- A git-result oracle that reports a commit for repo1 and no commit
elsewhere. -/
def gitMixed : Repository → Except String Bool :=
  fun r => if r.path = "/test/repo1" then .ok true else .ok false

/-- Witness for C6 at `cfgTwo` and its disabled repository. -/
theorem c6_disabled_repo_never_synced_witness :
    repoDisabled ∉ startup_repos cfgTwo ∧
    repoDisabled ∉ timer_tick_step false cfgTwo ∧
    repoDisabled ∉ tray_trigger_step false cfgTwo ∧
    repoDisabled ∉ (trigger_fold gitMixed cfgTwo).synced :=
  c6_disabled_repo_never_synced cfgTwo false gitMixed repoDisabled rfl

/-! ### C8 -/

/-- Claim C8: while suspended, a pending timer tick is drained as a no-op (no
repository is handed to the sync engine), and clearing suspension makes the
next tick sync every enabled repository again; a tray-initiated manual trigger
while suspended is likewise a no-op; and the (spec-modelled) IPC manual
trigger while suspended syncs nothing while still returning a well-formed
`ok` response. -/
theorem c8_suspension_gates_sync (cfg : Config)
    (gitResult : Repository → Except String Bool) :
    timer_tick_step true cfg = [] ∧
    timer_tick_step false cfg = cfg.repositories.filter (fun r => r.auto_commit) ∧
    tray_trigger_step true cfg = [] ∧
    (handle_trigger_command_suspended true cfg gitResult).2 = [] ∧
    (handle_trigger_command_suspended true cfg gitResult).1.status = ResponseStatus.ok ∧
    (handle_trigger_command_suspended true cfg gitResult).1.message ≠ "" :=
  ⟨rfl, rfl, rfl, rfl, rfl,
    (by decide : ("Daemon is suspended" : String) ≠ "")⟩

/-! ### C9 -/

/-- The IPC connection input of an unparseable request line; writing a
response would have succeeded, had one been attempted. -/
def badLineInput : ConnInput :=
  { read := .line "not json", parse := .error "Failed to parse command",
    write := .ok () }

/-- A well-formed ping request line, built character by character. -/
def pingLine : String :=
  String.mk ['{', '"', 'c', 'o', 'm', 'm', 'a', 'n', 'd', '"', ':', '"',
    'p', 'i', 'n', 'g', '"', '}']

/-- The IPC connection input of a well-formed ping request whose response
write succeeds. -/
def pingInput : ConnInput :=
  { read := .line pingLine, parse := .ok .ping, write := .ok () }

/-- An empty configuration. -/
def cfgEmpty : Config :=
  { daemon := { check_interval_seconds := 300, enable_tray := true }, repositories := [] }

/-- Counterexample to claim C9 as stated: on a request line that fails to
parse, `handle_connection` writes nothing back at all — the error is only
logged and the connection is closed without any response (and not because the
write would have failed), rather than an error response being written. -/
theorem c9_counterexample :
    badLineInput.read = ReadOutcome.line "not json" ∧
    badLineInput.parse = Except.error "Failed to parse command" ∧
    badLineInput.write = Except.ok () ∧
    handle_connection badLineInput cfgEmpty 0 gitMixed = none :=
  ⟨rfl, rfl, rfl, rfl⟩

/-- Claim C9 (amended): an error while handling an accepted connection results
in no response at all — the error is logged and the connection closes without
a reply, never with an error response.  In full: a nonempty request line that
fails to parse gets no response; a parsed command whose response write itself
fails gets no (delivered) response; a nonempty line that parses as a command
and whose write succeeds gets exactly the command's response; and whenever a
response was written, the read produced a nonempty line that parsed as a
command and the write succeeded. -/
theorem c9_handler_error_closes_silently :
    (∀ (inp : ConnInput) (cfg : Config) (uptime : Nat)
        (gitResult : Repository → Except String Bool) (s e : String),
      inp.read = .line s → s ≠ "" → inp.parse = .error e →
      handle_connection inp cfg uptime gitResult = none) ∧
    (∀ (inp : ConnInput) (cfg : Config) (uptime : Nat)
        (gitResult : Repository → Except String Bool) (s : String) (c : Command)
        (e : String),
      inp.read = .line s → s ≠ "" → inp.parse = .ok c → inp.write = .error e →
      handle_connection inp cfg uptime gitResult = none) ∧
    (∀ (inp : ConnInput) (cfg : Config) (uptime : Nat)
        (gitResult : Repository → Except String Bool) (s : String) (c : Command),
      inp.read = .line s → s ≠ "" → inp.parse = .ok c → inp.write = .ok () →
      handle_connection inp cfg uptime gitResult =
        some (match c with
          | .ping => Response.mkOk "pong"
          | .status => handle_status_command cfg uptime
          | .trigger => handle_trigger_command cfg gitResult)) ∧
    (∀ (inp : ConnInput) (cfg : Config) (uptime : Nat)
        (gitResult : Repository → Except String Bool) (resp : Response),
      handle_connection inp cfg uptime gitResult = some resp →
      ∃ s c, inp.read = .line s ∧ s ≠ "" ∧ inp.parse = .ok c ∧
        inp.write = .ok ()) := by
  refine ⟨?_, ?_, ?_, ?_⟩
  · intro inp cfg uptime gitResult s e hrd hs hp
    unfold handle_connection handle_connection_impl
    rw [hrd, hp]
    simp [if_neg hs]
  · intro inp cfg uptime gitResult s c e hrd hs hp hw
    unfold handle_connection handle_connection_impl
    rw [hrd, hp, hw]
    simp [if_neg hs]
  · intro inp cfg uptime gitResult s c hrd hs hp hw
    unfold handle_connection handle_connection_impl
    rw [hrd, hp, hw]
    simp [if_neg hs]
  · intro inp cfg uptime gitResult resp h
    obtain ⟨rd, pr, wr⟩ := inp
    rcases rd with e | s
    · simp [handle_connection, handle_connection_impl] at h
    · by_cases hs : s = ""
      · subst hs
        simp [handle_connection, handle_connection_impl] at h
      · simp only [handle_connection, handle_connection_impl, if_neg hs] at h
        rcases pr with e | c
        · simp at h
        · rcases wr with e | u
          · simp at h
          · exact ⟨s, c, rfl, hs, rfl, rfl⟩

/-- Witness for C9 (amended): the unparseable line gets nothing written back,
while a well-formed ping whose write succeeds gets exactly the pong
response. -/
theorem c9_handler_error_closes_silently_witness :
    handle_connection badLineInput cfgEmpty 0 gitMixed = none ∧
    handle_connection pingInput cfgEmpty 0 gitMixed = some (Response.mkOk "pong") :=
  ⟨c9_handler_error_closes_silently.1 badLineInput cfgEmpty 0 gitMixed
      "not json" "Failed to parse command" rfl (by decide) rfl,
   c9_handler_error_closes_silently.2.2.1 pingInput cfgEmpty 0 gitMixed
      pingLine Command.ping rfl (by decide) rfl rfl⟩

/-! ### C10 -/

theorem trigger_fold_details_files (gitResult : Repository → Except String Bool)
    (l : List Repository) :
    ∀ acc : TriggerAcc,
      (∀ d ∈ acc.details, (d.committed = true → d.files_changed = some 0) ∧
        (d.committed = false → d.files_changed = none)) →
      ∀ d ∈ (l.foldl (trigger_step gitResult) acc).details,
        (d.committed = true → d.files_changed = some 0) ∧
        (d.committed = false → d.files_changed = none) := by
  induction l with
  | nil => intro acc hacc d hd; exact hacc d hd
  | cons x xs ih =>
    intro acc hacc d hd
    rw [List.foldl_cons] at hd
    refine ih _ ?_ d hd
    intro d' hd'
    unfold trigger_step at hd'
    by_cases hx : x.auto_commit = false
    · rw [if_pos hx] at hd'
      exact hacc d' hd'
    · rw [if_neg hx] at hd'
      rcases hgr : gitResult x with e | b <;> rw [hgr] at hd'
      · rcases List.mem_append.mp hd' with h | h
        · exact hacc d' h
        · rw [List.mem_singleton.mp h]
          exact ⟨fun hco => by simp at hco, fun _ => rfl⟩
      · rcases List.mem_append.mp hd' with h | h
        · exact hacc d' h
        · rw [List.mem_singleton.mp h]
          cases b
          · exact ⟨fun hco => by simp at hco, fun _ => rfl⟩
          · exact ⟨fun _ => rfl, fun hco => by simp at hco⟩

/-- Claim C10: in every trigger response, a per-repository detail with
`committed = true` carries `files_changed = Some 0` and one with
`committed = false` carries `files_changed = None`; the field never reflects
an actual count of changed files. -/
theorem c10_files_changed_never_counts (cfg : Config)
    (gitResult : Repository → Except String Bool)
    (ck cm : Nat) (ds : List RepoDetail) (d : RepoDetail)
    (hdata : (handle_trigger_command cfg gitResult).data =
      some (.trigger ck cm ds))
    (hd : d ∈ ds) :
    (d.committed = true → d.files_changed = some 0) ∧
    (d.committed = false → d.files_changed = none) := by
  have hds : ds = (trigger_fold gitResult cfg).details := by
    simp only [handle_trigger_command, Response.ok_with_data, Option.some.injEq,
      ResponseData.trigger.injEq] at hdata
    exact hdata.2.2.symm
  rw [hds] at hd
  exact trigger_fold_details_files gitResult cfg.repositories ⟨0, 0, [], []⟩
    (by intro d' hd'; exact absurd hd' (List.not_mem_nil d')) d hd

/-- Witness for C10: in the trigger response for `cfgTwo` under `gitMixed`,
the committed detail carries `files_changed = Some 0`. -/
theorem c10_files_changed_never_counts_witness :
    ({ path := "/test/repo1", committed := true, files_changed := some 0,
       error := none } : RepoDetail).files_changed = some 0 :=
  (c10_files_changed_never_counts cfgTwo gitMixed 1 1
    [{ path := "/test/repo1", committed := true, files_changed := some 0, error := none }]
    { path := "/test/repo1", committed := true, files_changed := some 0, error := none }
    rfl (by decide)).1 rfl

end Autogit
